import Mathlib

/-!
Verification of the ConsortiumAI coordination layer: a shallow embedding of
`src/server/MCPServer.ts`, `src/orchestrator/WorkflowOrchestrator.ts` and
`src/agents/BaseAgent.ts`, together with theorems settling the behavioural
claims about worker registration, message routing, task dispatch, the shared
context store and workflow sequencing.

Modelling conventions:
* JavaScript `Map` objects become insertion-ordered association lists with
  `jsMapSet` / `jsMapGet` mirroring `Map.set` / `Map.get` semantics
  (set replaces in place when the key exists, otherwise appends).
* `crypto.randomUUID()` becomes an id supplied by the caller; where freshness
  matters it is an explicit hypothesis (UUIDs never collide in the model).
* `Date` timestamps become a `Nat` parameter `now`.
* An agent's async `execute` (which may throw) becomes a pure
  `Task → Except String AgentResponse` field; the thrown error is the
  `.error` payload.  The repository's concrete agents do not mutate their
  own state inside `execute`, so `execute` is modelled as pure.
* `console.log` calls are ignored (no observable effect on state).
-/

namespace ConsortiumAI

/-- `AgentRole` enum from `src/types.ts`. -/
inductive AgentRole
  | ProductManager
  | Architect
  | BackendDeveloper
  | FrontendDeveloper
  | QA
  | SecurityEngineer
  | DevOpsEngineer
deriving DecidableEq, Repr

/-- The string value of an `AgentRole` enum member (used in template-literal
keys such as `task_${task.id}_${role}`). -/
def roleStr : AgentRole → String
  | .ProductManager => "ProductManager"
  | .Architect => "Architect"
  | .BackendDeveloper => "BackendDeveloper"
  | .FrontendDeveloper => "FrontendDeveloper"
  | .QA => "QA"
  | .SecurityEngineer => "SecurityEngineer"
  | .DevOpsEngineer => "DevOpsEngineer"

/-- `TaskStatus` enum from `src/types.ts`. -/
inductive TaskStatus
  | Pending
  | InProgress
  | Completed
  | Failed
  | Blocked
deriving DecidableEq, Repr

/-- Task priority: the `"high" | "medium" | "low"` union from `src/types.ts`. -/
inductive Priority
  | high
  | medium
  | low
deriving DecidableEq, Repr

/-- `Task` interface from `src/types.ts`. -/
structure Task where
  id : String
  title : String
  description : String
  assignedTo : List AgentRole
  status : TaskStatus
  priority : Priority
  dependencies : Option (List String) := none
  output : Option String := none
  createdAt : Nat
  completedAt : Option Nat := none
deriving DecidableEq, Repr

/-- `Message` interface from `src/types.ts` (`from` and `to` are Lean
keywords, so those fields are called `sender` and `recipients`). -/
structure Message where
  id : String
  sender : String
  recipients : List AgentRole
  subject : String
  content : String
  timestamp : Nat
  metadata : Option (List (String × String)) := none
deriving DecidableEq, Repr

/-- `AgentResponse` interface from `src/types.ts`; `confidence` is a JS
number in [0,1], modelled as `Rat`. -/
structure AgentResponse where
  agentId : String
  agentRole : AgentRole
  taskId : Option String := none
  response : String
  confidence : Rat
  suggestedNextSteps : Option (List String) := none
  errors : Option (List String) := none
deriving DecidableEq, Repr

/-- A value stored in the shared context / artifact maps (the TS type is
`unknown`; these constructors cover every write the core performs plus
arbitrary caller data). -/
inductive CtxValue
  | resp (r : AgentResponse)
  | respList (rs : List AgentResponse)
  | str (s : String)
deriving DecidableEq, Repr

/-- A registered agent: the `BaseAgent` state (`AgentContext` fields plus the
private `messageQueue`) together with the subclass-supplied `execute`
behaviour (`execStep`).  The `sharedContext` reference held by `AgentContext`
is the server's own map, so it is not duplicated here. -/
structure Agent where
  agentId : String
  agentName : String
  role : AgentRole
  capabilities : List String
  memory : List (String × CtxValue) := []
  messageQueue : List Message := []
  execStep : Task → Except String AgentResponse

/-- `Map.set` on an insertion-ordered association list: replace in place if
the key is present, else append. -/
def jsMapSet {κ α : Type} [DecidableEq κ] (m : List (κ × α)) (k : κ) (v : α) :
    List (κ × α) :=
  match m with
  | [] => [(k, v)]
  | (k', v') :: rest =>
      if k' = k then (k, v) :: rest else (k', v') :: jsMapSet rest k v

/-- `Map.get` on an insertion-ordered association list. -/
def jsMapGet {κ α : Type} [DecidableEq κ] (m : List (κ × α)) (k : κ) :
    Option α :=
  match m with
  | [] => none
  | (k', v') :: rest => if k' = k then some v' else jsMapGet rest k

theorem jsMapGet_set_self {κ α : Type} [DecidableEq κ]
    (m : List (κ × α)) (k : κ) (v : α) :
    jsMapGet (jsMapSet m k v) k = some v := by
  induction m with
  | nil => simp [jsMapSet, jsMapGet]
  | cons p rest ih =>
      obtain ⟨k', v'⟩ := p
      by_cases h : k' = k <;> simp [jsMapSet, jsMapGet, h, ih]

theorem jsMapGet_set_ne {κ α : Type} [DecidableEq κ]
    (m : List (κ × α)) (k k' : κ) (v : α) (h : k ≠ k') :
    jsMapGet (jsMapSet m k v) k' = jsMapGet m k' := by
  induction m with
  | nil => simp [jsMapSet, jsMapGet, h]
  | cons p rest ih =>
      obtain ⟨k₀, v₀⟩ := p
      by_cases h₀ : k₀ = k
      · subst h₀
        simp [jsMapSet, jsMapGet, h]
      · simp only [jsMapSet, if_neg h₀]
        by_cases h₁ : k₀ = k'
        · simp [jsMapGet, h₁]
        · simp [jsMapGet, h₁, ih]

/-- Setting the same key twice keeps only the second value
(`Map.set` overwrite semantics). -/
theorem jsMapSet_jsMapSet {κ α : Type} [DecidableEq κ]
    (m : List (κ × α)) (k : κ) (v₁ v₂ : α) :
    jsMapSet (jsMapSet m k v₁) k v₂ = jsMapSet m k v₂ := by
  induction m with
  | nil => simp [jsMapSet]
  | cons p rest ih =>
      obtain ⟨k₀, v₀⟩ := p
      by_cases h₀ : k₀ = k
      · simp [jsMapSet, h₀]
      · simp [jsMapSet, h₀, ih]

/-- Every value of `jsMapSet m k v` is `v` or a value of `m`. -/
theorem jsMapSet_snd_mem {κ α : Type} [DecidableEq κ]
    (m : List (κ × α)) (k : κ) (v a : α)
    (ha : a ∈ (jsMapSet m k v).map Prod.snd) :
    a = v ∨ a ∈ m.map Prod.snd := by
  induction m with
  | nil => simpa [jsMapSet] using ha
  | cons p rest ih =>
      obtain ⟨k₀, v₀⟩ := p
      by_cases h₀ : k₀ = k
      · simp only [jsMapSet, if_pos h₀, List.map_cons, List.mem_cons] at ha
        rcases ha with h | h
        · exact Or.inl h
        · exact Or.inr (by simp [List.mem_cons]; right; simpa using h)
      · simp only [jsMapSet, if_neg h₀, List.map_cons, List.mem_cons] at ha
        rcases ha with h | h
        · exact Or.inr (by simp [h])
        · rcases ih h with h' | h'
          · exact Or.inl h'
          · exact Or.inr (by simp [List.mem_cons]; right; simpa using h')

/-!
## Server state and operations (`src/server/MCPServer.ts`)

The `MCPServer` instance fields and its `CompanyState` are flattened into a
single `ServerState` record.  The private `messageQueue : Message[]` field of
`MCPServer` is declared in the source but never read or written, so it is
omitted.  `console.log` output is dropped.  Note that in the source a `Task`
is a mutable object shared by reference between `taskQueue`, `pendingTasks`
and workflow stages; the pure model tracks the versions stored in
`pendingTasks`/`completedTasks`, which is where every claim reads them.
-/

/-- flattened `MCPServer` + `CompanyState`. -/
structure ServerState where
  id : String
  name : String
  createdAt : Nat
  agents : List (AgentRole × Agent) := []
  taskQueue : List Task := []
  sharedContext : List (String × CtxValue) := []
  completedTasks : List Task := []
  pendingTasks : List Task := []
  messageHistory : List Message := []
  artifacts : List (String × CtxValue) := []

/-- `new MCPServer(companyName)`: fresh empty state (`crypto.randomUUID()`
modelled as the caller-supplied `uuid`). -/
def mkServer (uuid : String) (companyName : String) (now : Nat) : ServerState :=
  { id := uuid, name := companyName, createdAt := now }

/-- `MCPServer.registerAgent`: stores the agent under its declared role
(`Map.set`, overwriting any prior agent for that role). -/
def registerAgent (s : ServerState) (a : Agent) : ServerState :=
  { s with agents := jsMapSet s.agents a.role a }

/-- `MCPServer.getAgent`. -/
def getAgent (s : ServerState) (role : AgentRole) : Option Agent :=
  jsMapGet s.agents role

/-- `MCPServer.getAllAgents`: `Array.from(this.agents.values())`. -/
def getAllAgents (s : ServerState) : List Agent :=
  s.agents.map Prod.snd

/-- Delivery loop of `MCPServer.routeMessage`: for each recipient role in
order, if an agent is registered, `agent.receiveMessage(message)` pushes the
message onto that agent's private queue; unregistered roles are skipped. -/
def deliverAll (agents : List (AgentRole × Agent)) (m : Message) :
    List AgentRole → List (AgentRole × Agent)
  | [] => agents
  | r :: rs =>
      match jsMapGet agents r with
      | none => deliverAll agents m rs
      | some a =>
          deliverAll
            (jsMapSet agents r { a with messageQueue := a.messageQueue ++ [m] })
            m rs

/-- `MCPServer.routeMessage`: append to the global history, then deliver to
every registered recipient. -/
def routeMessage (s : ServerState) (m : Message) : ServerState :=
  let s₁ := { s with messageHistory := s.messageHistory ++ [m] }
  { s₁ with agents := deliverAll s₁.agents m m.recipients }

/-- `MCPServer.createTask` (with the `priority` argument given explicitly);
`crypto.randomUUID()` is the caller-supplied `uuid`, `new Date()` is `now`. -/
def createTask (s : ServerState) (uuid : String) (now : Nat)
    (title description : String) (assignedTo : List AgentRole)
    (priority : Priority) : ServerState × Task :=
  let t : Task :=
    { id := uuid, title := title, description := description,
      assignedTo := assignedTo, status := .Pending, priority := priority,
      createdAt := now }
  ({ s with taskQueue := s.taskQueue ++ [t],
            pendingTasks := s.pendingTasks ++ [t] }, t)

/-- The TS default parameter value `priority = "medium"` of `createTask`. -/
def createTaskDefaultPriority : Priority := .medium

/-- `MCPServer.createTask` called with the `priority` argument omitted. -/
def createTaskNoPriority (s : ServerState) (uuid : String) (now : Nat)
    (title description : String) (assignedTo : List AgentRole) :
    ServerState × Task :=
  createTask s uuid now title description assignedTo createTaskDefaultPriority

/-- The per-role loop of `MCPServer.executeTask`, which threads only the
shared context and the response list: for each assigned role in order, look
up the agent (skip if absent); invoke `execute`; on success push the response
and store it under `` `task_${task.id}_${role}` ``; on a thrown error only
log (nothing is pushed or stored). -/
def dispatchRoles (agents : List (AgentRole × Agent)) (tRun : Task)
    (ctx : List (String × CtxValue)) :
    List AgentRole → List (String × CtxValue) × List AgentResponse
  | [] => (ctx, [])
  | role :: roles =>
      match jsMapGet agents role with
      | none => dispatchRoles agents tRun ctx roles
      | some a =>
          match a.execStep tRun with
          | .ok resp =>
              let ctx' := jsMapSet ctx
                ("task_" ++ tRun.id ++ "_" ++ roleStr role) (.resp resp)
              let out := dispatchRoles agents tRun ctx' roles
              (out.1, resp :: out.2)
          | .error _ => dispatchRoles agents tRun ctx roles

/-- Remove the first task whose id matches (the
`findIndex`/`splice(index, 1)` pair in `executeTask`; no change when the id
is absent, i.e. `findIndex` returns `-1`). -/
def removeFirstById : List Task → String → List Task
  | [], _ => []
  | t :: ts, i => if t.id = i then ts else t :: removeFirstById ts i

/-- `MCPServer.executeTask`: set status `InProgress`, run every assigned
role in order, then set status `Completed`, stamp `completedAt`, splice the
task out of `pendingTasks` (when present) and push it onto
`completedTasks` — unconditionally. -/
def executeTask (s : ServerState) (now : Nat) (t : Task) :
    ServerState × List AgentResponse :=
  let tRun : Task := { t with status := .InProgress }
  let out := dispatchRoles s.agents tRun s.sharedContext t.assignedTo
  let tDone : Task := { tRun with status := .Completed, completedAt := some now }
  ({ s with
      sharedContext := out.1,
      pendingTasks := removeFirstById s.pendingTasks t.id,
      completedTasks := s.completedTasks ++ [tDone] },
    out.2)

/-- `MCPServer.updateSharedContext`. -/
def updateSharedContext (s : ServerState) (key : String) (v : CtxValue) :
    ServerState :=
  { s with sharedContext := jsMapSet s.sharedContext key v }

/-- `MCPServer.getSharedContextValue`. -/
def getSharedContextValue (s : ServerState) (key : String) : Option CtxValue :=
  jsMapGet s.sharedContext key

/-- `MCPServer.storeArtifact`. -/
def storeArtifact (s : ServerState) (nm : String) (content : CtxValue) :
    ServerState :=
  { s with artifacts := jsMapSet s.artifacts nm content }

/-- `MCPServer.getArtifact`. -/
def getArtifact (s : ServerState) (nm : String) : Option CtxValue :=
  jsMapGet s.artifacts nm

/-!
## Workflow orchestrator (`src/orchestrator/WorkflowOrchestrator.ts`)
-/

/-- `WorkflowStage` interface from `src/types.ts`. -/
structure WorkflowStage where
  id : String
  name : String
  primaryAgent : AgentRole
  supportingAgents : Option (List AgentRole) := none
  tasks : List Task
  successCriteria : List String

/-- `WorkflowDefinition` interface from `src/types.ts`. -/
structure WorkflowDefinition where
  id : String
  name : String
  description : String
  initialPrompt : String
  stages : List WorkflowStage
  createdAt : Nat

/-- `WorkflowOrchestrator` instance state (it wraps an `MCPServer`). -/
structure OrchestratorState where
  server : ServerState
  currentWorkflow : Option WorkflowDefinition := none
  stageIndex : Nat := 0

/-- `WorkflowOrchestrator.defineWorkflow`: store the definition as the single
current workflow and reset the stage index. -/
def defineWorkflow (o : OrchestratorState) (uuid : String) (now : Nat)
    (name description initialPrompt : String) (stages : List WorkflowStage) :
    OrchestratorState × WorkflowDefinition :=
  let wf : WorkflowDefinition :=
    { id := uuid, name := name, description := description,
      initialPrompt := initialPrompt, stages := stages, createdAt := now }
  ({ o with currentWorkflow := some wf, stageIndex := 0 }, wf)

/-- `WorkflowOrchestrator.createStage` (pure builder). -/
def createStage (id name : String) (primaryAgent : AgentRole)
    (tasks : List Task) (successCriteria : List String)
    (supportingAgents : Option (List AgentRole)) : WorkflowStage :=
  { id := id, name := name, primaryAgent := primaryAgent,
    supportingAgents := supportingAgents, tasks := tasks,
    successCriteria := successCriteria }

/-- Ghost observation of workflow execution order: one `taskDispatch` per
`executeTask` call and one `stageWrite` per shared-context write of a
stage's results. -/
inductive Event
  | taskDispatch (stageId : String) (taskId : String)
  | stageWrite (key : String)
deriving DecidableEq, Repr

/-- The inner task loop of `executeWorkflow` for one stage: execute each of
the stage's tasks in list order and concatenate the returned responses.
Events are ghost instrumentation recording dispatch order. -/
def execStageTasks (sv : ServerState) (now : Nat) (stageId : String) :
    List Task → ServerState × List AgentResponse × List Event
  | [] => (sv, [], [])
  | t :: ts =>
      let out := executeTask sv now t
      let rest := execStageTasks out.1 now stageId ts
      (rest.1, out.2 ++ rest.2.1, .taskDispatch stageId t.id :: rest.2.2)

/-- The stage loop of `executeWorkflow`: per stage, run its tasks, record the
stage's responses in the workflow results map, then write them to the shared
context under `` `stage_${stage.id}_results` `` (the trivial success-criteria
check only logs and is dropped). -/
def execStages (sv : ServerState) (now : Nat)
    (acc : List (String × List AgentResponse)) :
    List WorkflowStage →
      ServerState × List (String × List AgentResponse) × List Event
  | [] => (sv, acc, [])
  | st :: rest =>
      let outT := execStageTasks sv now st.id st.tasks
      let acc₁ := jsMapSet acc st.id outT.2.1
      let sv₂ := updateSharedContext outT.1
        ("stage_" ++ st.id ++ "_results") (.respList outT.2.1)
      let outS := execStages sv₂ now acc₁ rest
      (outS.1, outS.2.1,
        outT.2.2 ++ [.stageWrite ("stage_" ++ st.id ++ "_results")] ++ outS.2.2)

/-- `WorkflowOrchestrator.executeWorkflow`: throws `"No workflow defined"`
when no workflow is current (state untouched, nothing dispatched), otherwise
runs every stage in definition order and returns the results map. -/
def executeWorkflow (o : OrchestratorState) (now : Nat) :
    Except String (List (String × List AgentResponse)) ×
      OrchestratorState × List Event :=
  match o.currentWorkflow with
  | none => (.error "No workflow defined", o, [])
  | some wf =>
      let out := execStages o.server now [] wf.stages
      (.ok out.2.1, { o with server := out.1 }, out.2.2)

/-!
## Shared-context key lemmas

The dispatcher writes keys `` `task_${task.id}_${role}` `` and the sequencer
writes keys `` `stage_${stage.id}_results` ``; these lemmas separate the two
families and show each is injective in its parameters.
-/

theorem string_append_cancel_left (s t u : String) (h : s ++ t = s ++ u) :
    t = u := by
  have hd := congrArg String.data h
  rw [String.data_append, String.data_append] at hd
  exact String.ext (List.append_cancel_left hd)

theorem roleStr_inj (r₁ r₂ : AgentRole) (h : roleStr r₁ = roleStr r₂) :
    r₁ = r₂ := by
  cases r₁ <;> cases r₂ <;> simp_all [roleStr]

theorem taskKey_inj (i : String) (r₁ r₂ : AgentRole)
    (h : "task_" ++ i ++ "_" ++ roleStr r₁ = "task_" ++ i ++ "_" ++ roleStr r₂) :
    r₁ = r₂ :=
  roleStr_inj r₁ r₂ (string_append_cancel_left _ _ _ h)

theorem stageKey_inj (a b : String)
    (h : "stage_" ++ a ++ "_results" = "stage_" ++ b ++ "_results") :
    a = b := by
  have hd := congrArg String.data h
  rw [String.data_append, String.data_append, String.data_append,
    String.data_append] at hd
  exact String.ext
    (List.append_cancel_left (List.append_cancel_right hd))

theorem taskKey_ne_stageKey (i x : String) (r : AgentRole) :
    "task_" ++ i ++ "_" ++ roleStr r ≠ "stage_" ++ x ++ "_results" := by
  intro h
  have hd := congrArg String.data h
  rw [String.data_append, String.data_append, String.data_append,
    String.data_append, String.data_append] at hd
  rw [show ("task_" : String).data = ['t', 'a', 's', 'k', '_'] from rfl,
    show ("stage_" : String).data = ['s', 't', 'a', 'g', 'e', '_'] from rfl]
    at hd
  simp at hd

/-!
## Dispatch-loop lemmas
-/

/-- What one role contributes during `executeTask`: `none` when the role has
no registered agent or its `execute` throws, otherwise the returned
response. -/
def roleOutcome (agents : List (AgentRole × Agent)) (tRun : Task)
    (r : AgentRole) : Option AgentResponse :=
  match jsMapGet agents r with
  | none => none
  | some a =>
      match a.execStep tRun with
      | .ok resp => some resp
      | .error _ => none

/-- The response list of the dispatch loop is exactly the successful
outcomes of the assigned roles, in assignment order. -/
theorem dispatchRoles_responses (agents : List (AgentRole × Agent))
    (tRun : Task) (ctx : List (String × CtxValue)) (roles : List AgentRole) :
    (dispatchRoles agents tRun ctx roles).2 =
      roles.filterMap (roleOutcome agents tRun) := by
  induction roles generalizing ctx with
  | nil => simp [dispatchRoles]
  | cons r rs ih =>
      cases ha : jsMapGet agents r with
      | none => simp [dispatchRoles, ha, roleOutcome, ih]
      | some a =>
          cases he : a.execStep tRun with
          | ok resp => simp [dispatchRoles, ha, he, roleOutcome, ih]
          | error e => simp [dispatchRoles, ha, he, roleOutcome, ih]

/-- The response list of `executeTask` as successful role outcomes. -/
theorem executeTask_responses (s : ServerState) (now : Nat) (t : Task) :
    (executeTask s now t).2 = t.assignedTo.filterMap
      (roleOutcome s.agents { t with status := .InProgress }) :=
  dispatchRoles_responses s.agents { t with status := .InProgress }
    s.sharedContext t.assignedTo

/-- Inversion: a successful role outcome comes from a registered agent whose
`execute` succeeded. -/
theorem roleOutcome_eq_some (agents : List (AgentRole × Agent)) (tRun : Task)
    (r : AgentRole) (x : AgentResponse)
    (h : roleOutcome agents tRun r = some x) :
    ∃ a, jsMapGet agents r = some a ∧ a.execStep tRun = .ok x := by
  unfold roleOutcome at h
  split at h
  · cases h
  · next a ha =>
      split at h
      · next resp he => cases h; exact ⟨a, ha, by rw [he]⟩
      · cases h

/-- Context keys that no processed role writes are untouched by the
dispatch loop. -/
theorem dispatchRoles_ctx_preserve (agents : List (AgentRole × Agent))
    (tRun : Task) (ctx : List (String × CtxValue)) (roles : List AgentRole)
    (k : String)
    (hk : ∀ r ∈ roles, k ≠ "task_" ++ tRun.id ++ "_" ++ roleStr r) :
    jsMapGet (dispatchRoles agents tRun ctx roles).1 k = jsMapGet ctx k := by
  induction roles generalizing ctx with
  | nil => simp [dispatchRoles]
  | cons r rs ih =>
      have hk0 : k ≠ "task_" ++ tRun.id ++ "_" ++ roleStr r :=
        hk r (List.mem_cons_self r rs)
      have hks : ∀ r' ∈ rs, k ≠ "task_" ++ tRun.id ++ "_" ++ roleStr r' :=
        fun r' hr' => hk r' (List.mem_cons_of_mem r hr')
      cases ha : jsMapGet agents r with
      | none => simp [dispatchRoles, ha, ih _ hks]
      | some a =>
          cases he : a.execStep tRun with
          | ok resp =>
              simp only [dispatchRoles, ha, he]
              rw [ih _ hks, jsMapGet_set_ne _ _ _ _ (fun hh => hk0 hh.symm)]
          | error e => simp [dispatchRoles, ha, he, ih _ hks]

/-- After the dispatch loop, a role that occurs once in the processed list
and whose agent succeeded has its response stored under its task key. -/
theorem dispatchRoles_ctx_get (agents : List (AgentRole × Agent))
    (tRun : Task) (ctx : List (String × CtxValue)) (roles : List AgentRole)
    (r : AgentRole) (a : Agent) (resp : AgentResponse)
    (hr : r ∈ roles) (hnd : roles.Nodup)
    (ha : jsMapGet agents r = some a) (hok : a.execStep tRun = .ok resp) :
    jsMapGet (dispatchRoles agents tRun ctx roles).1
      ("task_" ++ tRun.id ++ "_" ++ roleStr r) = some (.resp resp) := by
  induction roles generalizing ctx with
  | nil => cases hr
  | cons r₀ rs ih =>
      rcases List.mem_cons.mp hr with h₀ | h₀
      · subst h₀
        have hnotin : r ∉ rs := (List.nodup_cons.mp hnd).1
        have hks : ∀ r' ∈ rs,
            ("task_" ++ tRun.id ++ "_" ++ roleStr r : String) ≠
              "task_" ++ tRun.id ++ "_" ++ roleStr r' := by
          intro r' hr' hkey
          exact hnotin (by rw [taskKey_inj _ _ _ hkey]; exact hr')
        simp only [dispatchRoles, ha, hok]
        rw [dispatchRoles_ctx_preserve _ _ _ _ _ hks, jsMapGet_set_self]
      · have hne : r₀ ≠ r := by
          rintro rfl
          exact (List.nodup_cons.mp hnd).1 h₀
        have hnd' : rs.Nodup := (List.nodup_cons.mp hnd).2
        cases ha₀ : jsMapGet agents r₀ with
        | none => simp [dispatchRoles, ha₀, ih _ h₀ hnd']
        | some a₀ =>
            cases he₀ : a₀.execStep tRun with
            | ok resp₀ => simp [dispatchRoles, ha₀, he₀, ih _ h₀ hnd']
            | error e₀ => simp [dispatchRoles, ha₀, he₀, ih _ h₀ hnd']

/-!
## Concrete fixtures

Small executable instances used by counterexamples and witnesses: an agent
that always succeeds (in the style of the repository's concrete agents, which
set `agentRole` from their own context), and an agent whose `execute`
throws.
-/

/-- The response the succeeding Product-Manager fixture returns for a task. -/
def respPM (tid : String) : AgentResponse :=
  { agentId := "pm-001", agentRole := .ProductManager, taskId := some tid,
    response := "plan", confidence := 9/10 }

/-- A Product-Manager agent whose `execute` succeeds. -/
def okAgent : Agent :=
  { agentId := "pm-001", agentName := "Product Manager",
    role := .ProductManager, capabilities := ["planning"],
    execStep := fun t => .ok (respPM t.id) }

/-- A second Product-Manager agent (for the registry-overwrite claim). -/
def okAgent2 : Agent :=
  { agentId := "pm-002", agentName := "Product Manager II",
    role := .ProductManager, capabilities := ["planning"],
    execStep := fun t => .ok (respPM t.id) }

/-- An Architect agent whose `execute` always throws `"timeout"`. -/
def failAgent : Agent :=
  { agentId := "arch-001", agentName := "System Architect",
    role := .Architect, capabilities := ["design"],
    execStep := fun _ => .error "timeout" }

/-- A fresh server. -/
def baseServer : ServerState := mkServer "srv-1" "AI Software Company" 0

/-- Server with the succeeding PM agent and the throwing Architect agent. -/
def twoAgentServer : ServerState :=
  registerAgent (registerAgent baseServer okAgent) failAgent

/-- Server with only the succeeding PM agent. -/
def pmServer : ServerState := registerAgent baseServer okAgent

/-- Server with only the throwing Architect agent. -/
def archServer : ServerState := registerAgent baseServer failAgent

/-- Task assigned to `[ProductManager, Architect]`. -/
def taskAB : Task :=
  { id := "t-1", title := "Plan", description := "desc",
    assignedTo := [.ProductManager, .Architect], status := .Pending,
    priority := .high, createdAt := 0 }

/-- Task assigned to `[Architect, ProductManager]` (failure first). -/
def taskBA : Task :=
  { id := "t-1", title := "Plan", description := "desc",
    assignedTo := [.Architect, .ProductManager], status := .Pending,
    priority := .high, createdAt := 0 }

/-- Task assigned to `[ProductManager]` only. -/
def taskA : Task :=
  { id := "t-2", title := "Plan", description := "desc",
    assignedTo := [.ProductManager], status := .Pending,
    priority := .high, createdAt := 0 }

/-- Task assigned to `[Architect]` only. -/
def taskB : Task :=
  { id := "t-3", title := "Design", description := "desc",
    assignedTo := [.Architect], status := .Pending,
    priority := .high, createdAt := 0 }

/-!
## Claim C1 — failure handling in `executeTask`
-/

/-- C1 counterexample: for a task assigned `[ProductManager, Architect]`
where the PM agent succeeds and the Architect agent's `execute` throws,
`executeTask` returns only the PM response — 1 response, not the 2 the claim
requires, and no synthesized Architect response exists. -/
theorem C1_counterexample :
    (executeTask twoAgentServer 7 taskAB).2 = [respPM "t-1"] ∧
    ¬((executeTask twoAgentServer 7 taskAB).2.length = 2) := by
  refine ⟨rfl, ?_⟩
  intro h
  rw [show (executeTask twoAgentServer 7 taskAB).2 = [respPM "t-1"] from rfl]
    at h
  simp at h

/-- C1 (amended): for a task assigned to roles `[A, B]`, both registered,
where A's `execute` succeeds and B's throws, `executeTask` returns exactly
1 response — the A-response as produced; the error is caught and only
logged, so no B-response is synthesized; the failure does not abort dispatch
of the remaining assigned roles (with B dispatched first, A's response is
still produced); and the task's status becomes `Completed` with a completion
time, the task moving onto the completed collection. -/
theorem C1_theorem (s : ServerState) (now : Nat) (t₁ t₂ : Task)
    (rA rB : AgentRole) (aA aB : Agent)
    (respA₁ respA₂ : AgentResponse) (e₁ e₂ : String)
    (h₁ : t₁.assignedTo = [rA, rB])
    (h₂ : t₂.assignedTo = [rB, rA])
    (haA : jsMapGet s.agents rA = some aA)
    (haB : jsMapGet s.agents rB = some aB)
    (hok₁ : aA.execStep { t₁ with status := .InProgress } = .ok respA₁)
    (hfail₁ : aB.execStep { t₁ with status := .InProgress } = .error e₁)
    (hok₂ : aA.execStep { t₂ with status := .InProgress } = .ok respA₂)
    (hfail₂ : aB.execStep { t₂ with status := .InProgress } = .error e₂) :
    (executeTask s now t₁).2 = [respA₁] ∧
    (executeTask s now t₂).2 = [respA₂] ∧
    (executeTask s now t₁).1.completedTasks = s.completedTasks ++
      [{ t₁ with status := .Completed, completedAt := some now }] := by
  refine ⟨?_, ?_, ?_⟩
  · rw [executeTask_responses]
    generalize hf : roleOutcome s.agents
      { t₁ with status := TaskStatus.InProgress } = f
    rw [h₁]
    have hfA : f rA = some respA₁ := by
      rw [← hf]; simp [roleOutcome, haA, hok₁]
    have hfB : f rB = none := by
      rw [← hf]; simp [roleOutcome, haB, hfail₁]
    simp [List.filterMap_cons, hfA, hfB]
  · rw [executeTask_responses]
    generalize hf : roleOutcome s.agents
      { t₂ with status := TaskStatus.InProgress } = f
    rw [h₂]
    have hfA : f rA = some respA₂ := by
      rw [← hf]; simp [roleOutcome, haA, hok₂]
    have hfB : f rB = none := by
      rw [← hf]; simp [roleOutcome, haB, hfail₂]
    simp [List.filterMap_cons, hfA, hfB]
  · rfl

/-- C1 witness: the amended theorem instantiated with the concrete fixture
server, tasks and agents. -/
theorem C1_witness :
    (executeTask twoAgentServer 7 taskAB).2 = [respPM "t-1"] ∧
    (executeTask twoAgentServer 7 taskBA).2 = [respPM "t-1"] ∧
    (executeTask twoAgentServer 7 taskAB).1.completedTasks =
      twoAgentServer.completedTasks ++
        [{ taskAB with status := .Completed, completedAt := some 7 }] :=
  C1_theorem twoAgentServer 7 taskAB taskBA
    .ProductManager .Architect okAgent failAgent
    (respPM "t-1") (respPM "t-1") "timeout" "timeout"
    rfl rfl rfl rfl rfl rfl rfl rfl

/-!
## Claim C2 — per-role responses in the shared context store
-/

/-- C2 counterexample: after a successful execution for task `"t-2"` and
role `ProductManager`, the spec's key `"task:t-2:ProductManager"` holds
nothing; the response actually sits under `"task_t-2_ProductManager"`. -/
theorem C2_counterexample :
    (executeTask pmServer 7 taskA).2 = [respPM "t-2"] ∧
    getSharedContextValue (executeTask pmServer 7 taskA).1
      "task:t-2:ProductManager" = none ∧
    getSharedContextValue (executeTask pmServer 7 taskA).1
      "task_t-2_ProductManager" = some (.resp (respPM "t-2")) :=
  ⟨rfl, rfl, rfl⟩

/-- C2 (amended): for every task `t` and assigned role `r` (occurring once
in the assignment list) whose agent's `execute` succeeds with response
`resp`, after `executeTask` the shared context holds `resp` under the key
`` `task_${t.id}_${r}` `` (underscore separators, not the colons the claim
states), and `resp` is the response appended to the result list for `r`. -/
theorem C2_theorem (s : ServerState) (now : Nat) (t : Task) (r : AgentRole)
    (a : Agent) (resp : AgentResponse)
    (hr : r ∈ t.assignedTo) (hnd : t.assignedTo.Nodup)
    (ha : jsMapGet s.agents r = some a)
    (hok : a.execStep { t with status := .InProgress } = .ok resp) :
    getSharedContextValue (executeTask s now t).1
      ("task_" ++ t.id ++ "_" ++ roleStr r) = some (.resp resp) ∧
    resp ∈ (executeTask s now t).2 := by
  constructor
  · exact dispatchRoles_ctx_get s.agents { t with status := .InProgress }
      s.sharedContext t.assignedTo r a resp hr hnd ha hok
  · rw [executeTask_responses]
    exact List.mem_filterMap.mpr ⟨r, hr, by simp [roleOutcome, ha, hok]⟩

/-- C2 witness: the amended theorem at the concrete single-agent server. -/
theorem C2_witness :
    getSharedContextValue (executeTask pmServer 7 taskA).1
      ("task_" ++ "t-2" ++ "_" ++ roleStr .ProductManager) =
        some (.resp (respPM "t-2")) ∧
    respPM "t-2" ∈ (executeTask pmServer 7 taskA).2 :=
  C2_theorem pmServer 7 taskA .ProductManager okAgent (respPM "t-2")
    (by decide) (by decide) rfl rfl

/-!
## Claim C4 — response ordering
-/

/-- C4 counterexample: a task assigned `[Architect]` with the Architect
agent registered but throwing yields an empty response list, while the claim
(roles omitted only when unregistered) requires `[Architect]`. -/
theorem C4_counterexample :
    (executeTask archServer 7 taskB).2.map AgentResponse.agentRole = [] ∧
    ¬((executeTask archServer 7 taskB).2.map AgentResponse.agentRole =
        [AgentRole.Architect]) := by
  refine ⟨rfl, ?_⟩
  intro h
  rw [show (executeTask archServer 7 taskB).2.map AgentResponse.agentRole =
    [] from rfl] at h
  simp at h

theorem filterMap_agentRole (f : AgentRole → Option AgentResponse)
    (roles : List AgentRole)
    (hf : ∀ r x, f r = some x → x.agentRole = r) :
    (roles.filterMap f).map AgentResponse.agentRole =
      roles.filter (fun r => (f r).isSome) := by
  induction roles with
  | nil => simp
  | cons r rs ih =>
      cases hfr : f r with
      | none => simp [List.filterMap_cons, hfr, ih, List.filter_cons]
      | some x =>
          simp [List.filterMap_cons, hfr, ih, List.filter_cons, hf r x hfr]

/-- C4 (amended): the roles of the responses returned by `executeTask`
equal the assigned roles in assignment order, omitting the roles with no
registered agent **and** the roles whose agent's `execute` threw (the claim
acknowledges only the former omission); the hypothesis states that every
registered agent reports its own role in its responses, as every agent class
in the repository does. -/
theorem C4_theorem (s : ServerState) (now : Nat) (t : Task)
    (hfaith : ∀ r a, jsMapGet s.agents r = some a →
      ∀ task resp, a.execStep task = .ok resp → resp.agentRole = r) :
    (executeTask s now t).2.map AgentResponse.agentRole =
      t.assignedTo.filter (fun r =>
        (roleOutcome s.agents { t with status := .InProgress } r).isSome) := by
  rw [executeTask_responses]
  refine filterMap_agentRole _ _ ?_
  intro r x hx
  obtain ⟨a, ha, he⟩ := roleOutcome_eq_some _ _ _ _ hx
  exact hfaith r a ha _ _ he

/-- C4 witness: the amended theorem at the two-agent fixture server, with
the PM succeeding and the Architect throwing: the returned roles are
`[ProductManager]`. -/
theorem C4_witness :
    (executeTask twoAgentServer 7 taskAB).2.map AgentResponse.agentRole =
      taskAB.assignedTo.filter (fun r =>
        (roleOutcome twoAgentServer.agents
          { taskAB with status := .InProgress } r).isSome) :=
  C4_theorem twoAgentServer 7 taskAB (by
    intro r a ha task resp hok
    cases r with
    | ProductManager =>
        have ha2 : (some okAgent : Option Agent) = some a := ha
        obtain rfl : okAgent = a := by injection ha2
        have hok2 : (Except.ok (respPM task.id) :
          Except String AgentResponse) = .ok resp := hok
        obtain rfl : respPM task.id = resp := by injection hok2
        rfl
    | Architect =>
        have ha2 : (some failAgent : Option Agent) = some a := ha
        obtain rfl : failAgent = a := by injection ha2
        have hok2 : (Except.error "timeout" :
          Except String AgentResponse) = .ok resp := hok
        cases hok2
    | BackendDeveloper =>
        have ha2 : (none : Option Agent) = some a := ha
        cases ha2
    | FrontendDeveloper =>
        have ha2 : (none : Option Agent) = some a := ha
        cases ha2
    | QA =>
        have ha2 : (none : Option Agent) = some a := ha
        cases ha2
    | SecurityEngineer =>
        have ha2 : (none : Option Agent) = some a := ha
        cases ha2
    | DevOpsEngineer =>
        have ha2 : (none : Option Agent) = some a := ha
        cases ha2)

/-!
## Claim C6 — `executeWorkflow` with no workflow defined
-/

/-- C6: calling `executeWorkflow` with no current workflow yields the
`"No workflow defined"` error, leaves the whole orchestrator state (hence
the pending and completed task collections) unchanged, and dispatches no
task (empty event trace). -/
theorem C6_theorem (o : OrchestratorState) (now : Nat)
    (h : o.currentWorkflow = none) :
    executeWorkflow o now = (.error "No workflow defined", o, []) ∧
    (executeWorkflow o now).2.1.server.pendingTasks = o.server.pendingTasks ∧
    (executeWorkflow o now).2.1.server.completedTasks =
      o.server.completedTasks := by
  have he : executeWorkflow o now = (.error "No workflow defined", o, []) := by
    rw [executeWorkflow, h]
  exact ⟨he, by rw [he], by rw [he]⟩

/-- An orchestrator wrapping the fixture server, with no workflow defined. -/
def basicOrchestrator : OrchestratorState := { server := baseServer }

/-- C6 witness: the theorem at the concrete fixture orchestrator. -/
theorem C6_witness :
    executeWorkflow basicOrchestrator 3 =
      (.error "No workflow defined", basicOrchestrator, []) ∧
    (executeWorkflow basicOrchestrator 3).2.1.server.pendingTasks =
      basicOrchestrator.server.pendingTasks ∧
    (executeWorkflow basicOrchestrator 3).2.1.server.completedTasks =
      basicOrchestrator.server.completedTasks :=
  C6_theorem basicOrchestrator 3 rfl

/-!
## Claim C8 — registry overwrite
-/

/-- C8: registering `W2` for role `R` after `W1` (both declaring role `R`)
makes `getAgent R` return `W2` exclusively, and `W1` (assuming it was not
also registered elsewhere before) is no longer reachable through the
registry; no error is raised (registration is total). -/
theorem C8_theorem (s : ServerState) (W1 W2 : Agent) (R : AgentRole)
    (h1 : W1.role = R) (h2 : W2.role = R) (hne : W1 ≠ W2)
    (habs : W1 ∉ getAllAgents s) :
    getAgent (registerAgent (registerAgent s W1) W2) R = some W2 ∧
    W1 ∉ getAllAgents (registerAgent (registerAgent s W1) W2) := by
  have hAgents : (registerAgent (registerAgent s W1) W2).agents =
      jsMapSet s.agents R W2 := by
    simp only [registerAgent, h1, h2, jsMapSet_jsMapSet]
  constructor
  · rw [getAgent, hAgents]
    exact jsMapGet_set_self _ _ _
  · rw [getAllAgents, hAgents]
    intro hmem
    rcases jsMapSet_snd_mem _ _ _ _ hmem with h | h
    · exact hne h
    · exact habs h

/-- C8 witness: two concrete Product-Manager agents; after registering both,
lookup returns the second and the first is unreachable. -/
theorem C8_witness :
    getAgent (registerAgent (registerAgent baseServer okAgent) okAgent2)
      .ProductManager = some okAgent2 ∧
    okAgent ∉
      getAllAgents (registerAgent (registerAgent baseServer okAgent) okAgent2) :=
  C8_theorem baseServer okAgent okAgent2 .ProductManager rfl rfl
    (fun h => by
      have := congrArg Agent.agentId h
      simp [okAgent, okAgent2] at this)
    (by simp [getAllAgents, baseServer, mkServer])

/-!
## Claim C9 — `executeTask` on a task outside the pending collection
-/

theorem removeFirstById_of_not_mem (l : List Task) (i : String)
    (h : ∀ p ∈ l, p.id ≠ i) : removeFirstById l i = l := by
  induction l with
  | nil => rfl
  | cons t ts ih =>
      rw [removeFirstById, if_neg (h t (List.mem_cons_self t ts)),
        ih (fun p hp => h p (List.mem_cons_of_mem t hp))]

/-- C9: `executeTask` on a task whose id is not in the pending collection
raises no error; it leaves pending untouched, still marks the task
`Completed` and appends it to the completed collection — and re-executing
the same task appends a second entry with the same id. -/
theorem C9_theorem (s : ServerState) (now now' : Nat) (t : Task)
    (h : ∀ p ∈ s.pendingTasks, p.id ≠ t.id) :
    (executeTask s now t).1.pendingTasks = s.pendingTasks ∧
    (executeTask s now t).1.completedTasks = s.completedTasks ++
      [{ t with status := .Completed, completedAt := some now }] ∧
    ((executeTask (executeTask s now t).1 now'
        { t with status := .Completed, completedAt := some now }).1).completedTasks =
      s.completedTasks ++
        [{ t with status := .Completed, completedAt := some now },
          { t with status := .Completed, completedAt := some now' }] ∧
    ({ t with status := .Completed, completedAt := some now' } : Task).id =
      t.id := by
  refine ⟨?_, rfl, ?_, rfl⟩
  · rw [show (executeTask s now t).1.pendingTasks =
        removeFirstById s.pendingTasks t.id from rfl,
      removeFirstById_of_not_mem _ _ h]
  · rw [show ((executeTask (executeTask s now t).1 now'
        { t with status := .Completed, completedAt := some now }).1).completedTasks =
        (s.completedTasks ++
            [{ t with status := .Completed, completedAt := some now }]) ++
          [{ t with status := .Completed, completedAt := some now' }]
        from rfl,
      List.append_assoc]
    rfl

/-- C9 witness: the fixture server has an empty pending collection, so the
workflow-style task `taskA` is not pending; executing it twice appends two
completed entries with the same id. -/
theorem C9_witness :
    (executeTask pmServer 4 taskA).1.pendingTasks = pmServer.pendingTasks ∧
    (executeTask pmServer 4 taskA).1.completedTasks =
      pmServer.completedTasks ++
        [{ taskA with status := .Completed, completedAt := some 4 }] ∧
    ((executeTask (executeTask pmServer 4 taskA).1 9
        { taskA with status := .Completed, completedAt := some 4 }).1).completedTasks =
      pmServer.completedTasks ++
        [{ taskA with status := .Completed, completedAt := some 4 },
          { taskA with status := .Completed, completedAt := some 9 }] ∧
    ({ taskA with status := .Completed, completedAt := some 9 } : Task).id =
      taskA.id :=
  C9_theorem pmServer 4 9 taskA (by
    intro p hp
    simp [pmServer, registerAgent, baseServer, mkServer] at hp)

/-!
## Claim C10 — `createTask` with omitted priority
-/

/-- C10: `createTask` with the `priority` argument omitted returns a task
with priority `medium`, status `Pending`, the freshly allocated id
(`crypto.randomUUID()`, modelled as `uuid`), the creation timestamp, and no
completion time; the task is appended to the pending collection (and the
internal task queue), the completed collection is untouched, and the
returned task is exactly the appended one. -/
theorem C10_theorem (s : ServerState) (uuid : String) (now : Nat)
    (title description : String) (roles : List AgentRole) :
    (createTaskNoPriority s uuid now title description roles).2 =
      { id := uuid, title := title, description := description,
        assignedTo := roles, status := .Pending, priority := .medium,
        createdAt := now } ∧
    (createTaskNoPriority s uuid now title description roles).1.pendingTasks
      = s.pendingTasks ++
        [(createTaskNoPriority s uuid now title description roles).2] ∧
    (createTaskNoPriority s uuid now title description roles).1.taskQueue
      = s.taskQueue ++
        [(createTaskNoPriority s uuid now title description roles).2] ∧
    (createTaskNoPriority s uuid now title description roles).1.completedTasks
      = s.completedTasks :=
  ⟨rfl, rfl, rfl, rfl⟩

/-!
## Claim C7 — message routing
-/

/-- Roles not in the processed recipient list keep their registry entry. -/
theorem deliverAll_get_not_mem (agents : List (AgentRole × Agent))
    (m : Message) (rs : List AgentRole) (r : AgentRole) (hr : r ∉ rs) :
    jsMapGet (deliverAll agents m rs) r = jsMapGet agents r := by
  induction rs generalizing agents with
  | nil => rfl
  | cons r₀ rs' ih =>
      have hr₀ : r₀ ≠ r := fun h => hr (h ▸ List.mem_cons_self r₀ rs')
      have hr' : r ∉ rs' := fun h => hr (List.mem_cons_of_mem _ h)
      cases ha₀ : jsMapGet agents r₀ with
      | none => simp only [deliverAll, ha₀]; exact ih _ hr'
      | some a₀ =>
          simp only [deliverAll, ha₀]
          rw [ih _ hr', jsMapGet_set_ne _ _ _ _ hr₀]

/-- Delivery never creates registry entries: unregistered roles stay
unregistered. -/
theorem deliverAll_get_none (agents : List (AgentRole × Agent)) (m : Message)
    (rs : List AgentRole) (r : AgentRole) (ha : jsMapGet agents r = none) :
    jsMapGet (deliverAll agents m rs) r = none := by
  induction rs generalizing agents with
  | nil => exact ha
  | cons r₀ rs' ih =>
      cases ha₀ : jsMapGet agents r₀ with
      | none => simp only [deliverAll, ha₀]; exact ih _ ha
      | some a₀ =>
          have hne : r₀ ≠ r := by
            rintro rfl
            rw [ha] at ha₀
            cases ha₀
          simp only [deliverAll, ha₀]
          refine ih _ ?_
          rw [jsMapGet_set_ne _ _ _ _ hne]
          exact ha

/-- A registered role occurring once in the recipient list gets the message
appended at the end of its queue. -/
theorem deliverAll_get_mem (agents : List (AgentRole × Agent)) (m : Message)
    (rs : List AgentRole) (r : AgentRole) (a : Agent)
    (hr : r ∈ rs) (hnd : rs.Nodup) (ha : jsMapGet agents r = some a) :
    jsMapGet (deliverAll agents m rs) r =
      some { a with messageQueue := a.messageQueue ++ [m] } := by
  induction rs generalizing agents a with
  | nil => cases hr
  | cons r₀ rs' ih =>
      rcases List.mem_cons.mp hr with h | h
      · subst h
        have hnotin : r ∉ rs' := (List.nodup_cons.mp hnd).1
        simp only [deliverAll, ha]
        rw [deliverAll_get_not_mem _ _ _ _ hnotin, jsMapGet_set_self]
      · have hne : r₀ ≠ r := by
          rintro rfl
          exact (List.nodup_cons.mp hnd).1 h
        have hnd' : rs'.Nodup := (List.nodup_cons.mp hnd).2
        cases ha₀ : jsMapGet agents r₀ with
        | none =>
            simp only [deliverAll, ha₀]
            exact ih _ _ h hnd' ha
        | some a₀ =>
            simp only [deliverAll, ha₀]
            refine ih _ _ h hnd' ?_
            rw [jsMapGet_set_ne _ _ _ _ hne]
            exact ha

/-- C7: `routeMessage` appends the message to the global history
unconditionally; every recipient role with a registered agent (roles taken
once, i.e. a duplicate-free recipient list) gets the message appended at the
end of its private queue; unregistered recipient roles are skipped without
error; a registered non-recipient is untouched; and routing two messages to
the same registered role delivers them in send order. -/
theorem C7_theorem (s : ServerState) (m : Message) :
    (routeMessage s m).messageHistory = s.messageHistory ++ [m] ∧
    (∀ r a, r ∈ m.recipients → m.recipients.Nodup →
      jsMapGet s.agents r = some a →
      jsMapGet (routeMessage s m).agents r =
        some { a with messageQueue := a.messageQueue ++ [m] }) ∧
    (∀ r, jsMapGet s.agents r = none →
      jsMapGet (routeMessage s m).agents r = none) ∧
    (∀ r, r ∉ m.recipients →
      jsMapGet (routeMessage s m).agents r = jsMapGet s.agents r) ∧
    (∀ m' r a, r ∈ m.recipients → r ∈ m'.recipients →
      m.recipients.Nodup → m'.recipients.Nodup →
      jsMapGet s.agents r = some a →
      jsMapGet (routeMessage (routeMessage s m) m').agents r =
        some { a with messageQueue := a.messageQueue ++ [m, m'] }) := by
  refine ⟨rfl, ?_, ?_, ?_, ?_⟩
  · intro r a hr hnd ha
    exact deliverAll_get_mem s.agents m m.recipients r a hr hnd ha
  · intro r ha
    exact deliverAll_get_none s.agents m m.recipients r ha
  · intro r hr
    exact deliverAll_get_not_mem s.agents m m.recipients r hr
  · intro m' r a hr hr' hnd hnd' ha
    have h1 : jsMapGet (routeMessage s m).agents r =
        some { a with messageQueue := a.messageQueue ++ [m] } :=
      deliverAll_get_mem s.agents m m.recipients r a hr hnd ha
    have h2 := deliverAll_get_mem (routeMessage s m).agents m' m'.recipients
      r { a with messageQueue := a.messageQueue ++ [m] } hr' hnd' h1
    rw [show (a.messageQueue ++ [m, m'] : List Message) =
        (a.messageQueue ++ [m]) ++ [m'] from by simp]
    exact h2

/-- A message from the PM to `[ProductManager, QA]`. -/
def msg1 : Message :=
  { id := "m-1", sender := "ProductManager",
    recipients := [.ProductManager, .QA], subject := "s1", content := "c1",
    timestamp := 1 }

/-- A second message addressed to `[ProductManager]`. -/
def msg2 : Message :=
  { id := "m-2", sender := "QA", recipients := [.ProductManager],
    subject := "s2", content := "c2", timestamp := 2 }

/-- C7 witness: on the single-agent server, `msg1` lands in the history and
in the PM queue, the unregistered QA recipient is skipped, and a second
message arrives behind the first. -/
theorem C7_witness :
    (routeMessage pmServer msg1).messageHistory =
      pmServer.messageHistory ++ [msg1] ∧
    jsMapGet (routeMessage pmServer msg1).agents .ProductManager =
      some { okAgent with messageQueue := okAgent.messageQueue ++ [msg1] } ∧
    jsMapGet (routeMessage pmServer msg1).agents .QA = none ∧
    jsMapGet (routeMessage (routeMessage pmServer msg1) msg2).agents
        .ProductManager =
      some { okAgent with
        messageQueue := okAgent.messageQueue ++ [msg1, msg2] } := by
  obtain ⟨h1, h2, h3, _, h5⟩ := C7_theorem pmServer msg1
  exact ⟨h1, h2 .ProductManager okAgent (by decide) (by decide) rfl,
    h3 .QA rfl,
    h5 msg2 .ProductManager okAgent (by decide) (by decide) (by decide)
      (by decide) rfl⟩

/-!
## Claim C5 — workflow stage results and ordering
-/

/-- A new key appends to the key sequence of a JS map. -/
theorem jsMapSet_fst_new {κ α : Type} [DecidableEq κ]
    (m : List (κ × α)) (k : κ) (v : α) (hk : k ∉ m.map Prod.fst) :
    (jsMapSet m k v).map Prod.fst = m.map Prod.fst ++ [k] := by
  induction m with
  | nil => simp [jsMapSet]
  | cons p rest ih =>
      obtain ⟨k₀, v₀⟩ := p
      have hk₀ : k₀ ≠ k := by
        intro h
        exact hk (by simp [h])
      have hk' : k ∉ rest.map Prod.fst := fun h => hk (by simp [h])
      simp [jsMapSet, hk₀, ih hk']

/-- `executeTask` leaves every `` `stage_..._results` `` context key
untouched (it writes only `` `task_..._` `` keys). -/
theorem executeTask_stageCtx (s : ServerState) (now : Nat) (t : Task)
    (x : String) :
    jsMapGet (executeTask s now t).1.sharedContext
        ("stage_" ++ x ++ "_results") =
      jsMapGet s.sharedContext ("stage_" ++ x ++ "_results") := by
  rw [show (executeTask s now t).1.sharedContext =
      (dispatchRoles s.agents { t with status := .InProgress }
        s.sharedContext t.assignedTo).1 from rfl]
  exact dispatchRoles_ctx_preserve _ _ _ _ _
    (fun r _ => (taskKey_ne_stageKey t.id x r).symm)

/-- `executeTask` does not change the agent registry. -/
theorem executeTask_agents (s : ServerState) (now : Nat) (t : Task) :
    (executeTask s now t).1.agents = s.agents := rfl

/-- The task loop of a stage also leaves stage-result keys untouched. -/
theorem execStageTasks_stageCtx (sv : ServerState) (now : Nat)
    (sid : String) (ts : List Task) (x : String) :
    jsMapGet (execStageTasks sv now sid ts).1.sharedContext
        ("stage_" ++ x ++ "_results") =
      jsMapGet sv.sharedContext ("stage_" ++ x ++ "_results") := by
  induction ts generalizing sv with
  | nil => rfl
  | cons t ts' ih =>
      have hstep : (execStageTasks sv now sid (t :: ts')).1 =
          (execStageTasks (executeTask sv now t).1 now sid ts').1 := rfl
      rw [hstep, ih _, executeTask_stageCtx]

/-- The event trace of one stage's task loop: one dispatch per task, in
declaration order. -/
theorem execStageTasks_events (sv : ServerState) (now : Nat) (sid : String)
    (ts : List Task) :
    (execStageTasks sv now sid ts).2.2 =
      ts.map (fun t => Event.taskDispatch sid t.id) := by
  induction ts generalizing sv with
  | nil => rfl
  | cons t ts' ih => simp [execStageTasks, ih]

/-- The event trace of the stage loop: for each stage in order, its task
dispatches followed immediately by its stage-results write, all strictly
before any later stage's dispatches. -/
theorem execStages_events (sv : ServerState) (now : Nat)
    (acc : List (String × List AgentResponse)) (stages : List WorkflowStage) :
    (execStages sv now acc stages).2.2 = stages.flatMap (fun st =>
      st.tasks.map (fun t => Event.taskDispatch st.id t.id) ++
      [Event.stageWrite ("stage_" ++ st.id ++ "_results")]) := by
  induction stages generalizing sv acc with
  | nil => rfl
  | cons st rest ih =>
      simp only [execStages, List.flatMap_cons]
      rw [execStageTasks_events, ih]

/-- Workflow-results keys not matching any processed stage id are
untouched by the stage loop. -/
theorem execStages_acc_preserve (sv : ServerState) (now : Nat)
    (acc : List (String × List AgentResponse)) (stages : List WorkflowStage)
    (k : String) (hk : ∀ st ∈ stages, st.id ≠ k) :
    jsMapGet (execStages sv now acc stages).2.1 k = jsMapGet acc k := by
  induction stages generalizing sv acc with
  | nil => rfl
  | cons st rest ih =>
      have hstep : (execStages sv now acc (st :: rest)).2.1 =
          (execStages
            (updateSharedContext (execStageTasks sv now st.id st.tasks).1
              ("stage_" ++ st.id ++ "_results")
              (.respList (execStageTasks sv now st.id st.tasks).2.1))
            now (jsMapSet acc st.id (execStageTasks sv now st.id st.tasks).2.1)
            rest).2.1 := rfl
      rw [hstep, ih _ _ (fun st' h => hk st' (List.mem_cons_of_mem _ h)),
        jsMapGet_set_ne _ _ _ _ (hk st (List.mem_cons_self st rest))]

/-- Stage-result context keys of unprocessed ids are untouched by the stage
loop. -/
theorem execStages_stageCtx_preserve (sv : ServerState) (now : Nat)
    (acc : List (String × List AgentResponse)) (stages : List WorkflowStage)
    (x : String) (hx : ∀ st ∈ stages, st.id ≠ x) :
    jsMapGet (execStages sv now acc stages).1.sharedContext
        ("stage_" ++ x ++ "_results") =
      jsMapGet sv.sharedContext ("stage_" ++ x ++ "_results") := by
  induction stages generalizing sv acc with
  | nil => rfl
  | cons st rest ih =>
      have hstep : (execStages sv now acc (st :: rest)).1 =
          (execStages
            (updateSharedContext (execStageTasks sv now st.id st.tasks).1
              ("stage_" ++ st.id ++ "_results")
              (.respList (execStageTasks sv now st.id st.tasks).2.1))
            now (jsMapSet acc st.id (execStageTasks sv now st.id st.tasks).2.1)
            rest).1 := rfl
      rw [hstep, ih _ _ (fun st' h => hx st' (List.mem_cons_of_mem _ h))]
      have hupd : ServerState.sharedContext
          (updateSharedContext (execStageTasks sv now st.id st.tasks).1
            ("stage_" ++ st.id ++ "_results")
            (.respList (execStageTasks sv now st.id st.tasks).2.1)) =
          jsMapSet (execStageTasks sv now st.id st.tasks).1.sharedContext
            ("stage_" ++ st.id ++ "_results")
            (.respList (execStageTasks sv now st.id st.tasks).2.1) := rfl
      rw [hupd,
        jsMapGet_set_ne _ _ _ _ (fun h => hx st (List.mem_cons_self st rest)
          (stageKey_inj _ _ h)),
        execStageTasks_stageCtx]

/-- The results-map keys are the stage ids in definition order. -/
theorem execStages_keys (sv : ServerState) (now : Nat)
    (acc : List (String × List AgentResponse)) (stages : List WorkflowStage)
    (hnd : (stages.map WorkflowStage.id).Nodup)
    (hdisj : ∀ st ∈ stages, st.id ∉ acc.map Prod.fst) :
    (execStages sv now acc stages).2.1.map Prod.fst =
      acc.map Prod.fst ++ stages.map WorkflowStage.id := by
  induction stages generalizing sv acc with
  | nil => simp [execStages]
  | cons st rest ih =>
      have hnd' : (rest.map WorkflowStage.id).Nodup :=
        (List.nodup_cons.mp (by simpa using hnd)).2
      have hstid : st.id ∉ rest.map WorkflowStage.id :=
        (List.nodup_cons.mp (by simpa using hnd)).1
      have hstep : (execStages sv now acc (st :: rest)).2.1 =
          (execStages
            (updateSharedContext (execStageTasks sv now st.id st.tasks).1
              ("stage_" ++ st.id ++ "_results")
              (.respList (execStageTasks sv now st.id st.tasks).2.1))
            now (jsMapSet acc st.id (execStageTasks sv now st.id st.tasks).2.1)
            rest).2.1 := rfl
      rw [hstep, ih _ _ hnd' (by
        intro st' hst' hmem
        rw [jsMapSet_fst_new _ _ _
          (hdisj st (List.mem_cons_self st rest))] at hmem
        rcases List.mem_append.mp hmem with h | h
        · exact hdisj st' (List.mem_cons_of_mem _ hst') h
        · have heq : st'.id = st.id := by simpa using h
          exact hstid (heq ▸ List.mem_map_of_mem WorkflowStage.id hst')),
        jsMapSet_fst_new _ _ _ (hdisj st (List.mem_cons_self st rest))]
      simp

/-- Every stage's entry in the results map coincides with the list written
to the shared context under its stage key. -/
theorem execStages_results (sv : ServerState) (now : Nat)
    (acc : List (String × List AgentResponse)) (stages : List WorkflowStage)
    (hnd : (stages.map WorkflowStage.id).Nodup) :
    ∀ st ∈ stages, ∃ rs,
      jsMapGet (execStages sv now acc stages).2.1 st.id = some rs ∧
      jsMapGet (execStages sv now acc stages).1.sharedContext
        ("stage_" ++ st.id ++ "_results") = some (.respList rs) := by
  induction stages generalizing sv acc with
  | nil => intro st h; cases h
  | cons st₀ rest ih =>
      have hnd' : (rest.map WorkflowStage.id).Nodup :=
        (List.nodup_cons.mp (by simpa using hnd)).2
      have hstid : st₀.id ∉ rest.map WorkflowStage.id :=
        (List.nodup_cons.mp (by simpa using hnd)).1
      have hstep1 : (execStages sv now acc (st₀ :: rest)).2.1 =
          (execStages
            (updateSharedContext (execStageTasks sv now st₀.id st₀.tasks).1
              ("stage_" ++ st₀.id ++ "_results")
              (.respList (execStageTasks sv now st₀.id st₀.tasks).2.1))
            now
            (jsMapSet acc st₀.id (execStageTasks sv now st₀.id st₀.tasks).2.1)
            rest).2.1 := rfl
      have hstep2 : (execStages sv now acc (st₀ :: rest)).1 =
          (execStages
            (updateSharedContext (execStageTasks sv now st₀.id st₀.tasks).1
              ("stage_" ++ st₀.id ++ "_results")
              (.respList (execStageTasks sv now st₀.id st₀.tasks).2.1))
            now
            (jsMapSet acc st₀.id (execStageTasks sv now st₀.id st₀.tasks).2.1)
            rest).1 := rfl
      intro st hst
      rcases List.mem_cons.mp hst with h | h
      · subst h
        have hrestne : ∀ st' ∈ rest, st'.id ≠ st.id := by
          intro st' hst' hh
          exact hstid (hh ▸ List.mem_map_of_mem WorkflowStage.id hst')
        refine ⟨(execStageTasks sv now st.id st.tasks).2.1, ?_, ?_⟩
        · rw [hstep1, execStages_acc_preserve _ _ _ _ _ hrestne,
            jsMapGet_set_self]
        · rw [hstep2, execStages_stageCtx_preserve _ _ _ _ _ hrestne]
          have hupd : ServerState.sharedContext
              (updateSharedContext (execStageTasks sv now st.id st.tasks).1
                ("stage_" ++ st.id ++ "_results")
                (.respList (execStageTasks sv now st.id st.tasks).2.1)) =
              jsMapSet (execStageTasks sv now st.id st.tasks).1.sharedContext
                ("stage_" ++ st.id ++ "_results")
                (.respList (execStageTasks sv now st.id st.tasks).2.1) := rfl
          rw [hupd, jsMapGet_set_self]
      · obtain ⟨rs, h1, h2⟩ := ih
          (updateSharedContext (execStageTasks sv now st₀.id st₀.tasks).1
            ("stage_" ++ st₀.id ++ "_results")
            (.respList (execStageTasks sv now st₀.id st₀.tasks).2.1))
          (jsMapSet acc st₀.id (execStageTasks sv now st₀.id st₀.tasks).2.1)
          hnd' st h
        exact ⟨rs, by rw [hstep1]; exact h1, by rw [hstep2]; exact h2⟩

/-- C5 (amended): with a current workflow whose stage ids are distinct,
`executeWorkflow` succeeds with a results map covering every stage, keyed in
stage-definition order, each entry equal to the list written to the shared
context under `` `stage_${stageId}_results` `` (underscore separators, not
the colons the claim states); and the event trace shows each stage's
results write strictly between that stage's task dispatches and every later
stage's dispatches. -/
theorem C5_theorem (o : OrchestratorState) (now : Nat)
    (wf : WorkflowDefinition) (hwf : o.currentWorkflow = some wf)
    (hnd : (wf.stages.map WorkflowStage.id).Nodup) :
    (∃ res, (executeWorkflow o now).1 = .ok res ∧
      res.map Prod.fst = wf.stages.map WorkflowStage.id ∧
      ∀ st ∈ wf.stages, ∃ rs, jsMapGet res st.id = some rs ∧
        getSharedContextValue (executeWorkflow o now).2.1.server
          ("stage_" ++ st.id ++ "_results") = some (.respList rs)) ∧
    (executeWorkflow o now).2.2 = wf.stages.flatMap (fun st =>
      st.tasks.map (fun t => Event.taskDispatch st.id t.id) ++
      [Event.stageWrite ("stage_" ++ st.id ++ "_results")]) := by
  have h1 : (executeWorkflow o now).1 =
      .ok (execStages o.server now [] wf.stages).2.1 := by
    rw [executeWorkflow, hwf]
  have h2 : (executeWorkflow o now).2.1.server =
      (execStages o.server now [] wf.stages).1 := by
    rw [executeWorkflow, hwf]
  have h3 : (executeWorkflow o now).2.2 =
      (execStages o.server now [] wf.stages).2.2 := by
    rw [executeWorkflow, hwf]
  refine ⟨⟨(execStages o.server now [] wf.stages).2.1, h1, ?_, ?_⟩, ?_⟩
  · rw [execStages_keys _ _ _ _ hnd (by simp)]
    simp
  · intro st hst
    obtain ⟨rs, hres, hctx⟩ :=
      execStages_results o.server now [] wf.stages hnd st hst
    exact ⟨rs, hres, by rw [getSharedContextValue, h2]; exact hctx⟩
  · rw [h3, execStages_events]

/-- A one-task stage executed by the PM agent. -/
def stage1 : WorkflowStage :=
  createStage "s1" "Stage One" .ProductManager [taskA] ["done"] none

/-- The single-stage workflow definition used by the C5 fixtures. -/
def wf1 : WorkflowDefinition :=
  { id := "wf-1", name := "Ecom", description := "Desc",
    initialPrompt := "Prompt", stages := [stage1], createdAt := 0 }

/-- Orchestrator over the PM server with `wf1` defined as current. -/
def wfOrch : OrchestratorState :=
  (defineWorkflow { server := pmServer } "wf-1" 0 "Ecom" "Desc" "Prompt"
    [stage1]).1

/-- C5 counterexample: after executing the one-stage workflow, the spec's
key `"stage:s1:results"` holds nothing; the stage's results sit under
`"stage_s1_results"`. -/
theorem C5_counterexample :
    getSharedContextValue (executeWorkflow wfOrch 7).2.1.server
      "stage:s1:results" = none ∧
    getSharedContextValue (executeWorkflow wfOrch 7).2.1.server
      "stage_s1_results" = some (.respList [respPM "t-2"]) ∧
    (executeWorkflow wfOrch 7).1 = .ok [("s1", [respPM "t-2"])] :=
  ⟨rfl, rfl, rfl⟩

/-- C5 witness: the amended theorem at the concrete one-stage workflow. -/
theorem C5_witness :
    (∃ res, (executeWorkflow wfOrch 7).1 = .ok res ∧
      res.map Prod.fst = wf1.stages.map WorkflowStage.id ∧
      ∀ st ∈ wf1.stages, ∃ rs, jsMapGet res st.id = some rs ∧
        getSharedContextValue (executeWorkflow wfOrch 7).2.1.server
          ("stage_" ++ st.id ++ "_results") = some (.respList rs)) ∧
    (executeWorkflow wfOrch 7).2.2 = wf1.stages.flatMap (fun st =>
      st.tasks.map (fun t => Event.taskDispatch st.id t.id) ++
      [Event.stageWrite ("stage_" ++ st.id ++ "_results")]) :=
  C5_theorem wfOrch 7 wf1 rfl (by decide)

/-!
## Claim C3 — task lifecycle invariant

Reachable coordinator states are modelled as an inductive closure of the
public operations; `crypto.randomUUID()` freshness is the hypothesis of the
`create` step.  `createdIds` is the ghost list of ids allocated by
`createTask`.
-/

/-- Server state plus the ghost list of `createTask`-allocated ids. -/
structure TraceState where
  server : ServerState
  createdIds : List String

/-- Ids of the pending collection. -/
def pendingIds (ts : TraceState) : List String :=
  ts.server.pendingTasks.map Task.id

/-- Ids of the completed collection. -/
def completedIds (ts : TraceState) : List String :=
  ts.server.completedTasks.map Task.id

/-- Freshness of a `crypto.randomUUID()` result: it collides with no id
already in the system. -/
def FreshId (ts : TraceState) (uuid : String) : Prop :=
  uuid ∉ ts.createdIds ∧ uuid ∉ pendingIds ts ∧ uuid ∉ completedIds ts

/-- Reachable coordinator states: any interleaving of the public operations
starting from a fresh server.  `exec` takes an arbitrary task, covering both
created tasks and workflow-stage tasks built outside `createTask`. -/
inductive Reach : TraceState → Prop
  | init (uuid name : String) (now : Nat) :
      Reach ⟨mkServer uuid name now, []⟩
  | register (ts : TraceState) (a : Agent) (h : Reach ts) :
      Reach ⟨registerAgent ts.server a, ts.createdIds⟩
  | route (ts : TraceState) (m : Message) (h : Reach ts) :
      Reach ⟨routeMessage ts.server m, ts.createdIds⟩
  | updateCtx (ts : TraceState) (k : String) (v : CtxValue) (h : Reach ts) :
      Reach ⟨updateSharedContext ts.server k v, ts.createdIds⟩
  | artifact (ts : TraceState) (nm : String) (v : CtxValue) (h : Reach ts) :
      Reach ⟨storeArtifact ts.server nm v, ts.createdIds⟩
  | create (ts : TraceState) (uuid : String) (now : Nat)
      (title description : String) (roles : List AgentRole) (p : Priority)
      (hfresh : FreshId ts uuid) (h : Reach ts) :
      Reach ⟨(createTask ts.server uuid now title description roles p).1,
        ts.createdIds ++ [uuid]⟩
  | exec (ts : TraceState) (now : Nat) (t : Task) (h : Reach ts) :
      Reach ⟨(executeTask ts.server now t).1, ts.createdIds⟩

/-- Removing the first task with id `i` erases exactly the first occurrence
of `i` from the id sequence. -/
theorem removeFirstById_map_id (l : List Task) (i : String) :
    (removeFirstById l i).map Task.id = (l.map Task.id).erase i := by
  induction l with
  | nil => rfl
  | cons t ts ih =>
      by_cases h : t.id = i
      · subst h
        rw [removeFirstById, if_pos rfl, List.map_cons,
          List.erase_cons_head]
      · rw [removeFirstById, if_neg h, List.map_cons, List.map_cons,
          List.erase_cons_tail (by simpa using h), ih]

/-- The inductive invariant behind C3: pending ids were all allocated by
`createTask`, pending ids are distinct, and every created id is in exactly
one of the two collections. -/
def TaskInv (ts : TraceState) : Prop :=
  (∀ i ∈ pendingIds ts, i ∈ ts.createdIds) ∧
  (pendingIds ts).Nodup ∧
  ∀ i ∈ ts.createdIds,
    (i ∈ pendingIds ts ∧ i ∉ completedIds ts) ∨
    (i ∉ pendingIds ts ∧ i ∈ completedIds ts)

theorem reach_taskInv (ts : TraceState) (h : Reach ts) : TaskInv ts := by
  induction h with
  | init uuid name now =>
      refine ⟨?_, ?_, ?_⟩ <;> simp [pendingIds, completedIds, mkServer]
  | register ts a _ ih => exact ih
  | route ts m _ ih => exact ih
  | updateCtx ts k v _ ih => exact ih
  | artifact ts nm v _ ih => exact ih
  | create ts uuid now title description roles p hfresh _ ih =>
      obtain ⟨hsub, hnd, hxor⟩ := ih
      obtain ⟨hcid, hpend, hcomp⟩ := hfresh
      have hp' : pendingIds
          ⟨(createTask ts.server uuid now title description roles p).1,
            ts.createdIds ++ [uuid]⟩ = pendingIds ts ++ [uuid] := by
        simp [pendingIds, createTask]
      have hc' : completedIds
          ⟨(createTask ts.server uuid now title description roles p).1,
            ts.createdIds ++ [uuid]⟩ = completedIds ts := rfl
      refine ⟨?_, ?_, ?_⟩
      · intro i hi
        rw [hp'] at hi
        rcases List.mem_append.mp hi with h | h
        · exact List.mem_append_left _ (hsub i h)
        · exact List.mem_append_right _ h
      · rw [hp']
        exact List.nodup_append.mpr ⟨hnd, List.nodup_singleton uuid,
          fun a ha hb => hpend ((by simpa using hb : a = uuid) ▸ ha)⟩
      · intro i hi
        rw [hp', hc']
        rcases List.mem_append.mp hi with h | h
        · have hne : i ≠ uuid := fun hh => hcid (hh ▸ h)
          rcases hxor i h with ⟨hip, hic⟩ | ⟨hip, hic⟩
          · exact Or.inl ⟨List.mem_append_left _ hip, hic⟩
          · refine Or.inr ⟨?_, hic⟩
            intro hmem
            rcases List.mem_append.mp hmem with hm | hm
            · exact hip hm
            · exact hne (by simpa using hm)
        · have hiu : i = uuid := by simpa using h
          subst hiu
          exact Or.inl ⟨List.mem_append_right _ (by simp), hcomp⟩
  | exec ts now t _ ih =>
      obtain ⟨hsub, hnd, hxor⟩ := ih
      have hp' : pendingIds ⟨(executeTask ts.server now t).1,
          ts.createdIds⟩ = (pendingIds ts).erase t.id := by
        show (removeFirstById ts.server.pendingTasks t.id).map Task.id = _
        exact removeFirstById_map_id _ _
      have hc' : completedIds ⟨(executeTask ts.server now t).1,
          ts.createdIds⟩ = completedIds ts ++ [t.id] := by
        show (ts.server.completedTasks ++
          [{ t with status := .Completed, completedAt := some now }]).map
            Task.id = _
        simp [completedIds]
      refine ⟨?_, ?_, ?_⟩
      · intro i hi
        rw [hp'] at hi
        exact hsub i (List.erase_subset _ _ hi)
      · rw [hp']
        exact hnd.erase t.id
      · intro i hi
        rw [hp', hc']
        by_cases hit : i = t.id
        · subst hit
          refine Or.inr ⟨?_, List.mem_append_right _ (by simp)⟩
          intro hmem
          exact ((hnd.mem_erase_iff).mp hmem).1 rfl
        · have hpend_iff : i ∈ (pendingIds ts).erase t.id ↔ i ∈ pendingIds ts :=
            List.mem_erase_of_ne hit
          have hcomp_iff : i ∈ completedIds ts ++ [t.id] ↔
              i ∈ completedIds ts := by
            constructor
            · intro hm
              rcases List.mem_append.mp hm with hm | hm
              · exact hm
              · exact absurd (by simpa using hm) hit
            · exact fun hm => List.mem_append_left _ hm
          rcases hxor i hi with ⟨hip, hic⟩ | ⟨hip, hic⟩
          · exact Or.inl ⟨hpend_iff.mpr hip, fun hm => hic (hcomp_iff.mp hm)⟩
          · exact Or.inr ⟨fun hm => hip (hpend_iff.mp hm),
              hcomp_iff.mpr hic⟩

/-- C3: in every reachable coordinator state, each id allocated by
`createTask` is in exactly one of the pending/completed collections; no id
is ever in both (so a completed task never returns to pending); and
`executeTask` moves a pending task to completed unconditionally, stamping
status `Completed` and a completion time with no condition on worker
success. -/
theorem C3_theorem (ts : TraceState) (h : Reach ts) :
    (∀ i ∈ ts.createdIds,
      (i ∈ pendingIds ts ∧ i ∉ completedIds ts) ∨
      (i ∉ pendingIds ts ∧ i ∈ completedIds ts)) ∧
    (∀ i ∈ completedIds ts, i ∉ pendingIds ts) ∧
    ∀ now t,
      (executeTask ts.server now t).1.completedTasks =
        ts.server.completedTasks ++
          [{ t with status := .Completed, completedAt := some now }] ∧
      t.id ∉ pendingIds ⟨(executeTask ts.server now t).1, ts.createdIds⟩ ∧
      t.id ∈ completedIds ⟨(executeTask ts.server now t).1, ts.createdIds⟩ ∧
      completedIds ts ⊆
        completedIds ⟨(executeTask ts.server now t).1, ts.createdIds⟩ := by
  obtain ⟨hsub, hnd, hxor⟩ := reach_taskInv ts h
  refine ⟨hxor, ?_, ?_⟩
  · intro i hic hip
    rcases hxor i (hsub i hip) with ⟨_, hnc⟩ | ⟨hnp, _⟩
    · exact hnc hic
    · exact hnp hip
  · intro now t
    refine ⟨rfl, ?_, ?_, ?_⟩
    · rw [show pendingIds ⟨(executeTask ts.server now t).1, ts.createdIds⟩ =
          (pendingIds ts).erase t.id from removeFirstById_map_id _ _]
      intro hmem
      exact ((hnd.mem_erase_iff).mp hmem).1 rfl
    · show t.id ∈ (ts.server.completedTasks ++
        [{ t with status := .Completed, completedAt := some now }]).map
          Task.id
      simp
    · intro i hi
      show i ∈ (ts.server.completedTasks ++
        [{ t with status := .Completed, completedAt := some now }]).map
          Task.id
      rw [List.map_append]
      exact List.mem_append_left _ hi

/-- A concrete reachable state: one created task, then executed. -/
def tsExec : TraceState :=
  ⟨(executeTask
      (createTask (mkServer "srv-1" "AI Software Company" 0) "t-b" 1 "Build"
        "desc" [.ProductManager] .high).1 2
      (createTask (mkServer "srv-1" "AI Software Company" 0) "t-b" 1 "Build"
        "desc" [.ProductManager] .high).2).1,
    [] ++ ["t-b"]⟩

/-- C3 witness: the theorem at a concrete reachable state in which the
single created task has been executed. -/
theorem C3_witness :
    (∀ i ∈ tsExec.createdIds,
      (i ∈ pendingIds tsExec ∧ i ∉ completedIds tsExec) ∨
      (i ∉ pendingIds tsExec ∧ i ∈ completedIds tsExec)) ∧
    (∀ i ∈ completedIds tsExec, i ∉ pendingIds tsExec) ∧
    ∀ now t,
      (executeTask tsExec.server now t).1.completedTasks =
        tsExec.server.completedTasks ++
          [{ t with status := .Completed, completedAt := some now }] ∧
      t.id ∉ pendingIds ⟨(executeTask tsExec.server now t).1,
        tsExec.createdIds⟩ ∧
      t.id ∈ completedIds ⟨(executeTask tsExec.server now t).1,
        tsExec.createdIds⟩ ∧
      completedIds tsExec ⊆
        completedIds ⟨(executeTask tsExec.server now t).1,
          tsExec.createdIds⟩ :=
  C3_theorem tsExec
    (Reach.exec _ 2 _
      (Reach.create ⟨mkServer "srv-1" "AI Software Company" 0, []⟩ "t-b" 1
        "Build" "desc" [.ProductManager] .high
        (show ("t-b" ∉ ([] : List String)) ∧
            ("t-b" ∉ pendingIds ⟨mkServer "srv-1" "AI Software Company" 0, []⟩) ∧
            ("t-b" ∉ completedIds ⟨mkServer "srv-1" "AI Software Company" 0, []⟩)
          from ⟨by decide, by decide, by decide⟩)
        (Reach.init "srv-1" "AI Software Company" 0)))

end ConsortiumAI
